import Mathlib

/-!
Shallow embedding of the SalesBrush repository (src/run.py and
src/services/repository.py) together with proofs settling the frozen
claims about its specification.

Modelling conventions:
* Monetary amounts (`spend`) and counts (`conversions`) are modelled as
  rationals `ℚ`; `data_processing` casts both columns to float
  (`astype(float)`), so a single numeric type carries both.
* A parsed calendar date `y-m-d` is encoded as the natural number
  `10000*y + 100*m + d`.  For valid calendar dates this encoding is
  order-isomorphic to chronological order, which is the order pandas
  uses on its `datetime64` column.
* `pd.to_datetime(..., format="%Y-%m-%d", errors="coerce")` is modelled
  by `parseDate`, a strict `YYYY-MM-DD` parser returning `none` (NaT)
  on malformed input; rows whose date is `none` are dropped, mirroring
  `dropna(subset=["date", "campaign_id"])`.
* Python `round(x, 2)` on floats resolves ties to the even neighbour;
  `round2` implements round-half-even on `ℚ` at two fractional digits.
* The Postgres connection is modelled as a transactional store: an
  uncommitted batch becomes durable only at `commit()`; an error during
  `execute_batch` aborts before the commit, so the durable state is the
  pre-call state.
-/

/-- Decides whether a character is an ASCII decimal digit, by its code
point (48 = `0`, 57 = `9`). -/
def isDigitChar (c : Char) : Bool :=
  48 ≤ c.toNat && c.toNat ≤ 57

/-- Number of days of month `m` in year `y`, with the Gregorian leap
rule, as validated by `pandas.to_datetime` with format `%Y-%m-%d`. -/
def daysInMonth (y m : ℕ) : ℕ :=
  if m = 2 then
    if (y % 4 = 0 ∧ y % 100 ≠ 0) ∨ y % 400 = 0 then 29 else 28
  else if m = 4 ∨ m = 6 ∨ m = 9 ∨ m = 11 then 30 else 31

/-- Character-list form of the strict `YYYY-MM-DD` parser: four digit
characters, a dash, two digit characters, a dash, two digit
characters, with the month in `1..12` and the day valid for that month
and year. -/
def parseDateList : List Char → Option ℕ
  | [y1, y2, y3, y4, s1, m1, m2, s2, d1, d2] =>
    if s1 = '-' ∧ s2 = '-' ∧ isDigitChar y1 ∧ isDigitChar y2 ∧ isDigitChar y3 ∧
        isDigitChar y4 ∧ isDigitChar m1 ∧ isDigitChar m2 ∧ isDigitChar d1 ∧
        isDigitChar d2 then
      if 1 ≤ 10 * (m1.toNat - 48) + (m2.toNat - 48) ∧
          10 * (m1.toNat - 48) + (m2.toNat - 48) ≤ 12 ∧
          1 ≤ 10 * (d1.toNat - 48) + (d2.toNat - 48) ∧
          10 * (d1.toNat - 48) + (d2.toNat - 48) ≤
            daysInMonth
              (1000 * (y1.toNat - 48) + 100 * (y2.toNat - 48) +
                10 * (y3.toNat - 48) + (y4.toNat - 48))
              (10 * (m1.toNat - 48) + (m2.toNat - 48)) then
        some (10000 * (1000 * (y1.toNat - 48) + 100 * (y2.toNat - 48) +
            10 * (y3.toNat - 48) + (y4.toNat - 48)) +
          100 * (10 * (m1.toNat - 48) + (m2.toNat - 48)) +
          (10 * (d1.toNat - 48) + (d2.toNat - 48)))
      else none
    else none
  | _ => none

/-- `pd.to_datetime(s, format="%Y-%m-%d", errors="coerce")` on one
cell: parse a strict `YYYY-MM-DD` string into the encoded date
`10000*y + 100*m + d`, or `none` (NaT) when the string is malformed or
not a real calendar date. -/
def parseDate (str : String) : Option ℕ :=
  parseDateList str.toList

/-- Raw spend record, one element of the `spend_data` list. -/
structure SpendRecord where
  date : String
  campaign_id : String
  spend : ℚ
deriving DecidableEq, Repr

/-- Raw conversion record, one element of the `conv_data` list. -/
structure ConvRecord where
  date : String
  campaign_id : String
  conversions : ℚ
deriving DecidableEq, Repr

/-- The raw merge key `(date, campaign_id)` of a spend record, the
`on=["date", "campaign_id"]` columns of `pd.merge`. -/
def SpendRecord.key (r : SpendRecord) : String × String :=
  (r.date, r.campaign_id)

/-- The raw merge key `(date, campaign_id)` of a conversion record. -/
def ConvRecord.key (r : ConvRecord) : String × String :=
  (r.date, r.campaign_id)

/-- The parsed key of a spend record: the date after `to_datetime`
coercion (`none` = NaT) paired with the campaign id. -/
def SpendRecord.pkey (r : SpendRecord) : Option ℕ × String :=
  (parseDate r.date, r.campaign_id)

/-- The parsed key of a conversion record. -/
def ConvRecord.pkey (r : ConvRecord) : Option ℕ × String :=
  (parseDate r.date, r.campaign_id)

/-- A row of `df_merged` right after the outer merge: the date is still
the raw string; a missing side is NaN, modelled as `none`. -/
structure RawMergedRow where
  date : String
  campaign_id : String
  spend : Option ℚ
  conversions : Option ℚ
deriving DecidableEq, Repr

/-- The `(date, campaign_id)` key of a merged row before coercion. -/
def RawMergedRow.rkey (r : RawMergedRow) : String × String :=
  (r.date, r.campaign_id)

/-- Whether a conversion record joins with spend record `s` in
`pd.merge(..., on=["date", "campaign_id"])`: the raw keys coincide. -/
def matchesS (s : SpendRecord) (c : ConvRecord) : Bool :=
  c.date == s.date && c.campaign_id == s.campaign_id

/-- The block of outer-merge rows contributed by one spend record `s`:
one row per matching conversion record, or a single row with NaN
conversions when no conversion record shares the key. -/
def spendBlock (cv : List ConvRecord) (s : SpendRecord) : List RawMergedRow :=
  if (cv.filter (matchesS s)).isEmpty then
    [⟨s.date, s.campaign_id, some s.spend, none⟩]
  else
    (cv.filter (matchesS s)).map fun c =>
      ⟨s.date, s.campaign_id, some s.spend, some c.conversions⟩

/-- The right-only outer-merge row of a conversion record whose key
matches no spend record: the spend side is NaN. -/
def rightRow (c : ConvRecord) : RawMergedRow :=
  ⟨c.date, c.campaign_id, none, some c.conversions⟩

/-- `pd.merge(df_spend, df_conv, on=["date", "campaign_id"],
how="outer")`: every spend record produces its block of joined rows,
and every conversion record whose key matches no spend record produces
a right-only row with NaN spend. -/
def mergeOuter (sp : List SpendRecord) (cv : List ConvRecord) : List RawMergedRow :=
  (sp.flatMap (spendBlock cv)) ++
    ((cv.filter fun c => !(sp.any fun s => matchesS s c)).map rightRow)

/-- A row of `df_all` after date coercion and `dropna`: the date has
been parsed successfully. -/
structure MergedRow where
  date : ℕ
  campaign_id : String
  spend : Option ℚ
  conversions : Option ℚ
deriving DecidableEq, Repr

/-- Date coercion and `dropna` on one merged row: parse the date
string (`errors="coerce"` turns a malformed string into NaT) and drop
the row when the result is NaT. -/
def coerceRow (r : RawMergedRow) : Option MergedRow :=
  (parseDate r.date).map fun d => ⟨d, r.campaign_id, r.spend, r.conversions⟩

/-- `convert_data(spend_data, conv_data)`: outer-merge the two inputs
on `(date, campaign_id)`, coerce the date column and drop the rows
whose date failed to parse. -/
def convert_data (sp : List SpendRecord) (cv : List ConvRecord) : List MergedRow :=
  (mergeOuter sp cv).filterMap coerceRow

/-- Round-half-even of a rational to an integer, the tie rule of
Python's built-in `round`. -/
def roundHalfEven (x : ℚ) : ℤ :=
  if x - ⌊x⌋ < 1 / 2 then ⌊x⌋
  else if 1 / 2 < x - ⌊x⌋ then ⌊x⌋ + 1
  else if ⌊x⌋ % 2 = 0 then ⌊x⌋ else ⌊x⌋ + 1

/-- Python's `round(x, 2)`: round-half-even at two fractional digits. -/
def round2 (x : ℚ) : ℚ :=
  (roundHalfEven (x * 100) : ℚ) / 100

/-- One output row of `data_processing` (an element of
`df.to_dict(orient="records")`); `cpa = none` models the
undefined/null CPA. -/
structure MergedStat where
  date : ℕ
  campaign_id : String
  spend : ℚ
  conversions : ℚ
  cpa : Option ℚ
deriving DecidableEq, Repr

/-- The primary key `(date, campaign_id)` of an output row. -/
def MergedStat.pkey (r : MergedStat) : ℕ × String :=
  (r.date, r.campaign_id)

/-- Lexicographic order on character lists by code point, the order
pandas uses when sorting a string column. -/
def charListLe : List Char → List Char → Bool
  | [], _ => true
  | _ :: _, [] => false
  | a :: as, b :: bs =>
    a.toNat < b.toNat || (a.toNat == b.toNat && charListLe as bs)

theorem charListLe_total : ∀ as bs : List Char,
    charListLe as bs = true ∨ charListLe bs as = true := by
  intro as
  induction as with
  | nil => intro bs; exact Or.inl rfl
  | cons a as ih =>
    intro bs
    cases bs with
    | nil => exact Or.inr rfl
    | cons b bs =>
      simp only [charListLe, Bool.or_eq_true, Bool.and_eq_true,
        decide_eq_true_eq, beq_iff_eq]
      rcases Nat.lt_trichotomy a.toNat b.toNat with h | h | h
      · exact Or.inl (Or.inl h)
      · rcases ih bs with h2 | h2
        · exact Or.inl (Or.inr ⟨h, h2⟩)
        · exact Or.inr (Or.inr ⟨h.symm, h2⟩)
      · exact Or.inr (Or.inl h)

theorem charListLe_trans : ∀ as bs cs : List Char,
    charListLe as bs = true → charListLe bs cs = true →
    charListLe as cs = true := by
  intro as
  induction as with
  | nil => intro bs cs _ _; rfl
  | cons a as ih =>
    intro bs cs h1 h2
    cases bs with
    | nil => simp [charListLe] at h1
    | cons b bs =>
      cases cs with
      | nil => simp [charListLe] at h2
      | cons c cs =>
        simp only [charListLe, Bool.or_eq_true, Bool.and_eq_true,
          decide_eq_true_eq, beq_iff_eq] at h1 h2 ⊢
        rcases h1 with h1 | ⟨h1e, h1r⟩ <;> rcases h2 with h2 | ⟨h2e, h2r⟩
        · exact Or.inl (h1.trans h2)
        · exact Or.inl (h2e ▸ h1)
        · exact Or.inl (h1e ▸ h2)
        · exact Or.inr ⟨h1e.trans h2e, ih bs cs h1r h2r⟩

/-- The sort order of `df.sort_values(["date", "campaign_id"])`:
ascending by date, then ascending by campaign id. -/
def statLe (a b : MergedStat) : Prop :=
  a.date < b.date ∨
    (a.date = b.date ∧
      charListLe a.campaign_id.toList b.campaign_id.toList = true)

instance : DecidableRel statLe := fun a b => by
  unfold statLe; infer_instance

instance : IsTotal MergedStat statLe := by
  constructor
  intro a b
  unfold statLe
  rcases Nat.lt_trichotomy a.date b.date with h | h | h
  · exact Or.inl (Or.inl h)
  · rcases charListLe_total a.campaign_id.toList b.campaign_id.toList with h2 | h2
    · exact Or.inl (Or.inr ⟨h, h2⟩)
    · exact Or.inr (Or.inr ⟨h.symm, h2⟩)
  · exact Or.inr (Or.inl h)

instance : IsTrans MergedStat statLe := by
  constructor
  intro a b c hab hbc
  unfold statLe at *
  rcases hab with h1 | ⟨h1, h1s⟩ <;> rcases hbc with h2 | ⟨h2, h2s⟩
  · exact Or.inl (h1.trans h2)
  · exact Or.inl (h2 ▸ h1)
  · exact Or.inl (h1 ▸ h2)
  · exact Or.inr ⟨h1.trans h2, charListLe_trans _ _ _ h1s h2s⟩

/-- `data_processing(start_date, end_date, merged_df)`: filter the rows
to dates inside the closed interval, fill the missing sides with 0,
derive `cpa = round(spend / conversions, 2)` only when both `spend`
and `conversions` are positive (else null), and sort by
`(date, campaign_id)`. -/
def data_processing (start_date end_date : ℕ) (merged : List MergedRow) :
    List MergedStat :=
  if merged.isEmpty then []
  else
    let rows := merged.filter fun r =>
      decide (start_date ≤ r.date) && decide (r.date ≤ end_date)
    let stats := rows.map fun r =>
      let spend := r.spend.getD 0
      let conversions := r.conversions.getD 0
      { date := r.date
        campaign_id := r.campaign_id
        spend := spend
        conversions := conversions
        cpa := if 0 < spend ∧ 0 < conversions then
            some (round2 (spend / conversions))
          else none }
    stats.insertionSort statLe

/-- Evaluation of the documented rounding scenario:
`round(19.90 / 3, 2) = 6.63`. -/
theorem round2_concrete : round2 (199 / 10 / 3) = 663 / 100 := by
  have hx : ((199 : ℚ) / 10 / 3) * 100 = 1990 / 3 := by norm_num
  have hf : ⌊(1990 / 3 : ℚ)⌋ = 663 := by
    rw [Int.floor_eq_iff]
    norm_num
  unfold round2 roundHalfEven
  rw [hx, hf]
  rw [if_pos (by norm_num)]
  norm_num

/-- C1: for every merged row produced by `data_processing`, the `cpa`
field is defined and equal to `round(spend / conversions, 2)` exactly
when `spend > 0` and `conversions > 0`, and is null otherwise; in
particular `spend = 19.90` with `conversions = 3` yields
`cpa = 6.63`. -/
theorem cpa_defined_iff_positive :
    (∀ start_date end_date merged r,
      r ∈ data_processing start_date end_date merged →
      r.cpa = if 0 < r.spend ∧ 0 < r.conversions then
          some (round2 (r.spend / r.conversions))
        else none)
    ∧ round2 (199 / 10 / 3) = 663 / 100 := by
  constructor
  · intro s e merged r hr
    unfold data_processing at hr
    split at hr
    · simp at hr
    · rw [List.Perm.mem_iff (List.perm_insertionSort statLe _)] at hr
      obtain ⟨x, _, rfl⟩ := List.mem_map.mp hr
      rfl
  · exact round2_concrete

/-- C1 witness: a concrete row with `conversions = 0` is produced with
a null `cpa`, as the theorem dictates. -/
theorem cpa_defined_iff_positive_witness :
    ((⟨20250604, "A", 1, 0, none⟩ : MergedStat) ∈
      data_processing 20250604 20250604 [⟨20250604, "A", some 1, none⟩])
    ∧ (⟨20250604, "A", 1, 0, none⟩ : MergedStat).cpa =
        (if 0 < (⟨20250604, "A", 1, 0, none⟩ : MergedStat).spend ∧
            0 < (⟨20250604, "A", 1, 0, none⟩ : MergedStat).conversions then
          some (round2 ((⟨20250604, "A", 1, 0, none⟩ : MergedStat).spend /
            (⟨20250604, "A", 1, 0, none⟩ : MergedStat).conversions))
        else none) :=
  ⟨by decide,
    cpa_defined_iff_positive.1 20250604 20250604
      [⟨20250604, "A", some 1, none⟩] _ (by decide)⟩

/-- C10: the list returned by `data_processing` is sorted in ascending
order by `(date, campaign_id)`, so the output order is deterministic
for identical inputs. -/
theorem data_processing_sorted (start_date end_date : ℕ)
    (merged : List MergedRow) :
    List.Sorted statLe (data_processing start_date end_date merged) := by
  unfold data_processing
  split
  · exact List.sorted_nil
  · exact List.sorted_insertionSort statLe _

theorem spendBlock_date (cv : List ConvRecord) (s : SpendRecord) :
    ∀ r ∈ spendBlock cv s, r.date = s.date := by
  intro r hr
  unfold spendBlock at hr
  split at hr
  · rw [List.mem_singleton] at hr
    rw [hr]
  · obtain ⟨c, _, rfl⟩ := List.mem_map.mp hr
    rfl

theorem filterMap_spendBlock_of_malformed (cv : List ConvRecord)
    (s : SpendRecord) (h : parseDate s.date = none) :
    (spendBlock cv s).filterMap coerceRow = [] := by
  rw [List.filterMap_eq_nil_iff]
  intro r hr
  unfold coerceRow
  rw [spendBlock_date cv s r hr, h]
  rfl

theorem matchesS_date {s : SpendRecord} {c : ConvRecord}
    (h : matchesS s c = true) : c.date = s.date := by
  unfold matchesS at h
  exact beq_iff_eq.mp ((Bool.and_eq_true _ _).mp h).1

theorem filterMap_rightRows_skip_matched (s0 : SpendRecord)
    (h : parseDate s0.date = none) (p : ConvRecord → Bool) :
    ∀ cv : List ConvRecord,
    ((cv.filter fun c => !(matchesS s0 c || p c)).map rightRow).filterMap
        coerceRow
    = ((cv.filter fun c => !(p c)).map rightRow).filterMap coerceRow := by
  intro cv
  induction cv with
  | nil => rfl
  | cons c cv ih =>
    rw [List.filter_cons, List.filter_cons]
    by_cases hm : matchesS s0 c = true
    · have hc : parseDate c.date = none := by rw [matchesS_date hm]; exact h
      by_cases hp : p c = true
      · simp only [hm, hp, Bool.true_or, Bool.not_true, Bool.false_eq_true,
          if_false, ih]
      · simp only [hm, hp, Bool.true_or, Bool.not_true, Bool.not_false,
          Bool.false_eq_true, if_false, if_pos, List.map_cons,
          List.filterMap_cons]
        have : coerceRow (rightRow c) = none := by
          unfold coerceRow rightRow
          rw [hc]
          rfl
        rw [this, ih]
    · have hm2 : matchesS s0 c = false := Bool.eq_false_iff.mpr hm
      by_cases hp : p c = true
      · simp only [hm2, hp, Bool.false_or, Bool.not_true, Bool.false_eq_true,
          if_false, ih]
      · have hp2 : p c = false := Bool.eq_false_iff.mpr hp
        simp only [hm2, hp2, Bool.false_or, Bool.not_false, if_pos,
          List.map_cons, List.filterMap_cons, ih]

theorem filterMap_spendBlock_cons_malformed (c0 : ConvRecord)
    (h : parseDate c0.date = none) (cv : List ConvRecord) (s : SpendRecord) :
    (spendBlock (c0 :: cv) s).filterMap coerceRow
    = (spendBlock cv s).filterMap coerceRow := by
  by_cases hm : matchesS s c0 = true
  · have hs : parseDate s.date = none := by
      rw [← matchesS_date hm]
      exact h
    rw [filterMap_spendBlock_of_malformed _ _ hs,
      filterMap_spendBlock_of_malformed _ _ hs]
  · unfold spendBlock
    rw [List.filter_cons_of_neg hm]

theorem filterMap_flatMap_cons_malformed (c0 : ConvRecord)
    (h : parseDate c0.date = none) (cv : List ConvRecord) :
    ∀ sp : List SpendRecord,
    ((sp.flatMap (spendBlock (c0 :: cv))).filterMap coerceRow)
    = ((sp.flatMap (spendBlock cv)).filterMap coerceRow) := by
  intro sp
  induction sp with
  | nil => rfl
  | cons s sp ih =>
    rw [List.flatMap_cons, List.flatMap_cons, List.filterMap_append,
      List.filterMap_append, filterMap_spendBlock_cons_malformed c0 h cv s, ih]

/-- C3 (amended): a record whose date string does not parse is silently
dropped by the merge — `convert_data` returns normally, and its output
is exactly what it would be had the malformed record been absent. -/
theorem malformed_dates_silently_dropped :
    (∀ (s0 : SpendRecord) (sp : List SpendRecord) (cv : List ConvRecord),
      parseDate s0.date = none →
      convert_data (s0 :: sp) cv = convert_data sp cv)
    ∧ (∀ (c0 : ConvRecord) (sp : List SpendRecord) (cv : List ConvRecord),
      parseDate c0.date = none →
      convert_data sp (c0 :: cv) = convert_data sp cv) := by
  constructor
  · intro s0 sp cv h
    unfold convert_data mergeOuter
    rw [List.flatMap_cons, List.append_assoc, List.filterMap_append,
      filterMap_spendBlock_of_malformed cv s0 h, List.nil_append,
      List.filterMap_append, List.filterMap_append]
    congr 1
    have hpred : (fun c => !((s0 :: sp).any fun s => matchesS s c))
        = fun c => !(matchesS s0 c || sp.any fun s => matchesS s c) := by
      funext c
      rw [List.any_cons]
    rw [hpred]
    exact filterMap_rightRows_skip_matched s0 h
      (fun c => sp.any fun s => matchesS s c) cv
  · intro c0 sp cv h
    unfold convert_data mergeOuter
    rw [List.filterMap_append, List.filterMap_append,
      filterMap_flatMap_cons_malformed c0 h cv sp]
    congr 1
    rw [List.filter_cons]
    by_cases hk : (!(sp.any fun s => matchesS s c0)) = true
    · rw [if_pos hk, List.map_cons, List.filterMap_cons]
      have : coerceRow (rightRow c0) = none := by
        unfold coerceRow rightRow
        rw [h]
        rfl
      rw [this]
    · rw [if_neg hk]

/-- C3 counterexample: an input containing a record with a malformed
date string does not make the merge raise; the record is silently
dropped and `convert_data` returns the empty row set. -/
theorem malformed_date_no_error_cex :
    convert_data [⟨"not-a-date", "A", 5⟩] [] = [] := by decide

/-- C3 amended-claim witness: dropping a concrete malformed spend
record leaves the merge output unchanged. -/
theorem malformed_dates_silently_dropped_witness :
    parseDate (SpendRecord.date ⟨"2025-13-40", "A", 1⟩) = none
    ∧ convert_data [⟨"2025-13-40", "A", 1⟩, ⟨"2025-06-04", "B", 2⟩] []
      = convert_data [⟨"2025-06-04", "B", 2⟩] [] :=
  ⟨by decide,
    malformed_dates_silently_dropped.1 ⟨"2025-13-40", "A", 1⟩
      [⟨"2025-06-04", "B", 2⟩] [] (by decide)⟩

theorem isDigitChar_bounds {c : Char} (h : isDigitChar c = true) :
    48 ≤ c.toNat ∧ c.toNat ≤ 57 := by
  unfold isDigitChar at h
  simp only [Bool.and_eq_true, decide_eq_true_eq] at h
  exact h

theorem daysInMonth_le_31 (y m : ℕ) : daysInMonth y m ≤ 31 := by
  unfold daysInMonth
  split
  · split <;> omega
  · split <;> omega

theorem charEq_of_toNat {a b : Char} (h : a.toNat = b.toNat) : a = b :=
  Char.ext (UInt32.ext h)

theorem string_eq_of_toList {s t : String} (h : s.toList = t.toList) :
    s = t := by
  cases s
  cases t
  simp only [String.toList] at h
  exact congrArg String.mk h

theorem parseDateList_inj : ∀ (cs ds : List Char) (n : ℕ),
    parseDateList cs = some n → parseDateList ds = some n → cs = ds := by
  intro cs ds n hs ht
  unfold parseDateList at hs ht
  split at hs <;> try exact Option.noConfusion hs
  rename_i a1 a2 a3 a4 a5 a6 a7 a8 a9 a10
  split at hs <;> try exact Option.noConfusion hs
  rename_i hcondA
  split at hs <;> try exact Option.noConfusion hs
  rename_i hboundA
  injection hs with hs
  split at ht <;> try exact Option.noConfusion ht
  rename_i b1 b2 b3 b4 b5 b6 b7 b8 b9 b10
  split at ht <;> try exact Option.noConfusion ht
  rename_i hcondB
  split at ht <;> try exact Option.noConfusion ht
  rename_i hboundB
  injection ht with ht
  obtain ⟨hA1, hA2, hA3, hA4, hA5, hA6, hA7, hA8, hA9, hA10⟩ := hcondA
  obtain ⟨hB1, hB2, hB3, hB4, hB5, hB6, hB7, hB8, hB9, hB10⟩ := hcondB
  obtain ⟨la1, ua1⟩ := isDigitChar_bounds hA3
  obtain ⟨la2, ua2⟩ := isDigitChar_bounds hA4
  obtain ⟨la3, ua3⟩ := isDigitChar_bounds hA5
  obtain ⟨la4, ua4⟩ := isDigitChar_bounds hA6
  obtain ⟨la6, ua6⟩ := isDigitChar_bounds hA7
  obtain ⟨la7, ua7⟩ := isDigitChar_bounds hA8
  obtain ⟨la9, ua9⟩ := isDigitChar_bounds hA9
  obtain ⟨la10, ua10⟩ := isDigitChar_bounds hA10
  obtain ⟨lb1, ub1⟩ := isDigitChar_bounds hB3
  obtain ⟨lb2, ub2⟩ := isDigitChar_bounds hB4
  obtain ⟨lb3, ub3⟩ := isDigitChar_bounds hB5
  obtain ⟨lb4, ub4⟩ := isDigitChar_bounds hB6
  obtain ⟨lb6, ub6⟩ := isDigitChar_bounds hB7
  obtain ⟨lb7, ub7⟩ := isDigitChar_bounds hB8
  obtain ⟨lb9, ub9⟩ := isDigitChar_bounds hB9
  obtain ⟨lb10, ub10⟩ := isDigitChar_bounds hB10
  have hdA := daysInMonth_le_31
    (1000 * (a1.toNat - 48) + 100 * (a2.toNat - 48) +
      10 * (a3.toNat - 48) + (a4.toNat - 48))
    (10 * (a6.toNat - 48) + (a7.toNat - 48))
  have hdB := daysInMonth_le_31
    (1000 * (b1.toNat - 48) + 100 * (b2.toNat - 48) +
      10 * (b3.toNat - 48) + (b4.toNat - 48))
    (10 * (b6.toNat - 48) + (b7.toNat - 48))
  obtain ⟨m1A, m2A, d1A, d2A⟩ := hboundA
  obtain ⟨m1B, m2B, d1B, d2B⟩ := hboundB
  have e1 : a1 = b1 := charEq_of_toNat (by omega)
  have e2 : a2 = b2 := charEq_of_toNat (by omega)
  have e3 : a3 = b3 := charEq_of_toNat (by omega)
  have e4 : a4 = b4 := charEq_of_toNat (by omega)
  have e5 : a5 = b5 := hA1.trans hB1.symm
  have e6 : a6 = b6 := charEq_of_toNat (by omega)
  have e7 : a7 = b7 := charEq_of_toNat (by omega)
  have e8 : a8 = b8 := hA2.trans hB2.symm
  have e9 : a9 = b9 := charEq_of_toNat (by omega)
  have e10 : a10 = b10 := charEq_of_toNat (by omega)
  rw [e1, e2, e3, e4, e5, e6, e7, e8, e9, e10]

theorem parseDate_inj {s t : String} {n : ℕ} (hs : parseDate s = some n)
    (ht : parseDate t = some n) : s = t :=
  string_eq_of_toList (parseDateList_inj _ _ n hs ht)

/-- Key predicate on an output row: the row carries the parsed key
`(d, c)`. -/
def statKeyIs (d : ℕ) (c : String) (r : MergedStat) : Bool :=
  r.date == d && r.campaign_id == c

/-- Key predicate on a coerced merged row. -/
def rowKeyIs (d : ℕ) (c : String) (r : MergedRow) : Bool :=
  r.date == d && r.campaign_id == c

/-- Key predicate on a raw merged row: the date string parses to `d`
and the campaign id is `c`. -/
def rawKeyIs (d : ℕ) (c : String) (r : RawMergedRow) : Bool :=
  parseDate r.date == some d && r.campaign_id == c

/-- Key predicate on a spend record. -/
def spendKeyIs (d : ℕ) (c : String) (s : SpendRecord) : Bool :=
  parseDate s.date == some d && s.campaign_id == c

/-- Key predicate on a conversion record. -/
def convKeyIs (d : ℕ) (c : String) (c0 : ConvRecord) : Bool :=
  parseDate c0.date == some d && c0.campaign_id == c

theorem countP_unique {β : Type} (p : β → Bool) :
    ∀ l : List β, l.Nodup →
    (∀ a ∈ l, ∀ b ∈ l, p a = true → p b = true → a = b) →
    l.countP p = if l.any p = true then 1 else 0 := by
  intro l
  induction l with
  | nil => intro _ _; rfl
  | cons a l ih =>
    intro hnd hu
    rcases List.nodup_cons.mp hnd with ⟨hna, hndl⟩
    rw [List.countP_cons, List.any_cons]
    by_cases hp : p a = true
    · have hz : l.countP p = 0 := by
        rw [List.countP_eq_zero]
        intro b hb hpb
        exact hna ((hu b (List.mem_cons_of_mem a hb) a
          (List.mem_cons_self a l) hpb hp) ▸ hb)
      rw [hz, hp]
      simp
    · have hp2 : p a = false := Bool.eq_false_iff.mpr hp
      rw [hp2, ih hndl fun x hx y hy =>
        hu x (List.mem_cons_of_mem a hx) y (List.mem_cons_of_mem a hy)]
      simp

theorem countP_data_processing (s e d : ℕ) (c : String)
    (merged : List MergedRow) :
    (data_processing s e merged).countP (statKeyIs d c)
    = if s ≤ d ∧ d ≤ e then merged.countP (rowKeyIs d c) else 0 := by
  unfold data_processing
  split
  · rename_i h
    rw [List.isEmpty_iff.mp h]
    simp [List.countP_nil]
  · rw [List.Perm.countP_eq _ (List.perm_insertionSort statLe _),
      List.countP_map, List.countP_filter]
    by_cases hd : s ≤ d ∧ d ≤ e
    · rw [if_pos hd]
      apply List.countP_congr
      intro r _
      unfold statKeyIs rowKeyIs
      simp only [Function.comp_apply, Bool.and_eq_true, beq_iff_eq,
        decide_eq_true_eq]
      constructor
      · rintro ⟨⟨h1, h2⟩, _⟩
        exact ⟨h1, h2⟩
      · rintro ⟨h1, h2⟩
        exact ⟨⟨h1, h2⟩, by omega, by omega⟩
    · rw [if_neg hd, List.countP_eq_zero]
      intro r _ hr
      unfold statKeyIs at hr
      simp only [Function.comp_apply, Bool.and_eq_true, beq_iff_eq,
        decide_eq_true_eq] at hr
      obtain ⟨⟨h1, _⟩, h3, h4⟩ := hr
      exact hd (by omega)

theorem countP_filterMap_coerce (d : ℕ) (c : String) :
    ∀ l : List RawMergedRow,
    (l.filterMap coerceRow).countP (rowKeyIs d c)
    = l.countP (rawKeyIs d c) := by
  intro l
  induction l with
  | nil => rfl
  | cons r l ih =>
    cases hpr : parseDate r.date with
    | none =>
      have hc : coerceRow r = none := by
        unfold coerceRow
        rw [hpr]
        rfl
      rw [List.countP_cons]
      simp only [List.filterMap_cons, hc, ih]
      unfold rawKeyIs
      rw [hpr]
      simp
    | some dd =>
      have hc : coerceRow r = some ⟨dd, r.campaign_id, r.spend, r.conversions⟩ := by
        unfold coerceRow
        rw [hpr]
        rfl
      simp only [List.filterMap_cons, hc, List.countP_cons, ih]
      congr 1
      unfold rowKeyIs rawKeyIs
      rw [hpr]
      rfl

theorem countP_convert_data (d : ℕ) (c : String)
    (sp : List SpendRecord) (cv : List ConvRecord) :
    (convert_data sp cv).countP (rowKeyIs d c)
    = (mergeOuter sp cv).countP (rawKeyIs d c) := by
  unfold convert_data
  exact countP_filterMap_coerce d c (mergeOuter sp cv)

theorem matchesS_iff_key {s : SpendRecord} {c : ConvRecord} :
    matchesS s c = true ↔ ConvRecord.key c = SpendRecord.key s := by
  unfold matchesS ConvRecord.key SpendRecord.key
  simp [Bool.and_eq_true, beq_iff_eq, Prod.ext_iff]

theorem spendKeyIs_iff {d : ℕ} {c : String} {s : SpendRecord} :
    spendKeyIs d c s = true ↔ parseDate s.date = some d ∧ s.campaign_id = c := by
  unfold spendKeyIs
  simp [Bool.and_eq_true, beq_iff_eq]

theorem convKeyIs_iff {d : ℕ} {c : String} {c0 : ConvRecord} :
    convKeyIs d c c0 = true ↔
      parseDate c0.date = some d ∧ c0.campaign_id = c := by
  unfold convKeyIs
  simp [Bool.and_eq_true, beq_iff_eq]

theorem countP_const {β : Type} (b : Bool) (l : List β) :
    l.countP (fun _ => b) = if b = true then l.length else 0 := by
  induction l with
  | nil => simp
  | cons a l ih =>
    rw [List.countP_cons, ih]
    cases b <;> simp

theorem filter_matchesS_length_le_one (cv : List ConvRecord)
    (hcv : (cv.map ConvRecord.key).Nodup) (s : SpendRecord) :
    (cv.filter (matchesS s)).length ≤ 1 := by
  rw [← List.countP_eq_length_filter]
  rw [countP_unique (matchesS s) cv (List.Nodup.of_map _ hcv)
    fun a ha b hb hpa hpb => List.inj_on_of_nodup_map hcv ha hb
      ((matchesS_iff_key.mp hpa).trans (matchesS_iff_key.mp hpb).symm)]
  split <;> omega

theorem countP_spendBlock (d : ℕ) (c : String) (cv : List ConvRecord)
    (hcv : (cv.map ConvRecord.key).Nodup) (s : SpendRecord) :
    (spendBlock cv s).countP (rawKeyIs d c)
    = if spendKeyIs d c s = true then 1 else 0 := by
  unfold spendBlock
  split
  · rw [List.countP_cons, List.countP_nil, Nat.zero_add]
    rfl
  · rename_i hne
    have hlen : (cv.filter (matchesS s)).length = 1 := by
      have h1 := filter_matchesS_length_le_one cv hcv s
      have h2 : (cv.filter (matchesS s)).length ≠ 0 := by
        intro h0
        exact hne (List.isEmpty_iff.mpr (List.length_eq_zero.mp h0))
      omega
    rw [List.countP_map]
    have hcon : (rawKeyIs d c ∘ fun c0 : ConvRecord =>
        (⟨s.date, s.campaign_id, some s.spend, some c0.conversions⟩ :
          RawMergedRow))
        = fun _ => spendKeyIs d c s := rfl
    rw [hcon, countP_const, hlen]

theorem countP_flatMap_spendBlocks (d : ℕ) (c : String)
    (cv : List ConvRecord) (hcv : (cv.map ConvRecord.key).Nodup) :
    ∀ sp : List SpendRecord,
    ((sp.flatMap (spendBlock cv)).countP (rawKeyIs d c))
    = sp.countP (spendKeyIs d c) := by
  intro sp
  induction sp with
  | nil => rfl
  | cons s sp ih =>
    rw [List.flatMap_cons, List.countP_append, ih, List.countP_cons,
      countP_spendBlock d c cv hcv s]
    omega

theorem countP_rightRows (d : ℕ) (c : String) (p : ConvRecord → Bool)
    (cv : List ConvRecord) :
    (((cv.filter p).map rightRow).countP (rawKeyIs d c))
    = cv.countP (fun c0 => convKeyIs d c c0 && p c0) := by
  rw [List.countP_map, List.countP_filter]
  rfl

theorem countP_mergeOuter (d : ℕ) (c : String) (sp : List SpendRecord)
    (cv : List ConvRecord) (hsp : (sp.map SpendRecord.key).Nodup)
    (hcv : (cv.map ConvRecord.key).Nodup) :
    (mergeOuter sp cv).countP (rawKeyIs d c)
    = if (some d, c) ∈ sp.map SpendRecord.pkey ∨
        (some d, c) ∈ cv.map ConvRecord.pkey then 1 else 0 := by
  unfold mergeOuter
  rw [List.countP_append, countP_flatMap_spendBlocks d c cv hcv sp,
    countP_rightRows d c _ cv]
  have hspu : sp.countP (spendKeyIs d c)
      = if sp.any (spendKeyIs d c) = true then 1 else 0 :=
    countP_unique _ sp (List.Nodup.of_map _ hsp) fun a ha b hb hpa hpb => by
      obtain ⟨ha1, ha2⟩ := spendKeyIs_iff.mp hpa
      obtain ⟨hb1, hb2⟩ := spendKeyIs_iff.mp hpb
      refine List.inj_on_of_nodup_map hsp ha hb ?_
      unfold SpendRecord.key
      rw [parseDate_inj ha1 hb1, ha2, hb2]
  have hcvu : cv.countP (fun c0 => convKeyIs d c c0 &&
        !(sp.any fun s => matchesS s c0))
      = if cv.any (fun c0 => convKeyIs d c c0 &&
          !(sp.any fun s => matchesS s c0)) = true then 1 else 0 :=
    countP_unique _ cv (List.Nodup.of_map _ hcv) fun a ha b hb hpa hpb => by
      obtain ⟨ha1, ha2⟩ := convKeyIs_iff.mp (Bool.and_eq_true _ _ |>.mp hpa).1
      obtain ⟨hb1, hb2⟩ := convKeyIs_iff.mp (Bool.and_eq_true _ _ |>.mp hpb).1
      refine List.inj_on_of_nodup_map hcv ha hb ?_
      unfold ConvRecord.key
      rw [parseDate_inj ha1 hb1, ha2, hb2]
  rw [hspu, hcvu]
  by_cases hA : sp.any (spendKeyIs d c) = true
  · have hmem : (some d, c) ∈ sp.map SpendRecord.pkey := by
      obtain ⟨s0, hs0, hps0⟩ := List.any_eq_true.mp hA
      obtain ⟨h1, h2⟩ := spendKeyIs_iff.mp hps0
      refine List.mem_map.mpr ⟨s0, hs0, ?_⟩
      unfold SpendRecord.pkey
      rw [h1, h2]
    have hB : cv.any (fun c0 => convKeyIs d c c0 &&
        !(sp.any fun s => matchesS s c0)) = false := by
      rw [Bool.eq_false_iff]
      intro hB
      obtain ⟨c0, hc0, hpc0⟩ := List.any_eq_true.mp hB
      obtain ⟨hk, hnm⟩ := (Bool.and_eq_true _ _).mp hpc0
      obtain ⟨hk1, hk2⟩ := convKeyIs_iff.mp hk
      obtain ⟨s0, hs0, hps0⟩ := List.any_eq_true.mp hA
      obtain ⟨h1, h2⟩ := spendKeyIs_iff.mp hps0
      have hmatch : matchesS s0 c0 = true := by
        unfold matchesS
        rw [parseDate_inj hk1 h1, hk2, h2]
        simp
      rw [Bool.not_eq_true', List.any_eq_false] at hnm
      exact hnm s0 hs0 hmatch
    rw [hA, hB, if_pos (Or.inl hmem)]
    simp
  · have hA2 : sp.any (spendKeyIs d c) = false := Bool.eq_false_iff.mpr hA
    have hnotmemSp : (some d, c) ∉ sp.map SpendRecord.pkey := by
      intro hmem
      obtain ⟨s0, hs0, hps0⟩ := List.mem_map.mp hmem
      unfold SpendRecord.pkey at hps0
      rw [Prod.mk.injEq] at hps0
      exact hA (List.any_eq_true.mpr ⟨s0, hs0,
        spendKeyIs_iff.mpr ⟨hps0.1, hps0.2⟩⟩)
    by_cases hC : (some d, c) ∈ cv.map ConvRecord.pkey
    · have hB : cv.any (fun c0 => convKeyIs d c c0 &&
          !(sp.any fun s => matchesS s c0)) = true := by
        obtain ⟨c0, hc0, hpc0⟩ := List.mem_map.mp hC
        unfold ConvRecord.pkey at hpc0
        rw [Prod.mk.injEq] at hpc0
        have hnm : (sp.any fun s => matchesS s c0) = false := by
          rw [List.any_eq_false]
          intro s0 hs0 hmatch
          have hkey := matchesS_iff_key.mp hmatch
          unfold ConvRecord.key SpendRecord.key at hkey
          rw [Prod.mk.injEq] at hkey
          refine hA (List.any_eq_true.mpr ⟨s0, hs0, spendKeyIs_iff.mpr
            ⟨?_, ?_⟩⟩)
          · rw [← hkey.1]
            exact hpc0.1
          · rw [← hkey.2]
            exact hpc0.2
        refine List.any_eq_true.mpr ⟨c0, hc0, ?_⟩
        rw [Bool.and_eq_true]
        exact ⟨convKeyIs_iff.mpr ⟨hpc0.1, hpc0.2⟩, by rw [hnm]; rfl⟩
      rw [hA2, hB, if_pos (Or.inr hC)]
      simp
    · have hB : cv.any (fun c0 => convKeyIs d c c0 &&
          !(sp.any fun s => matchesS s c0)) = false := by
        rw [List.any_eq_false]
        intro c0 hc0 hpc0
        obtain ⟨hk, _⟩ := (Bool.and_eq_true _ _).mp hpc0
        obtain ⟨hk1, hk2⟩ := convKeyIs_iff.mp hk
        refine hC (List.mem_map.mpr ⟨c0, hc0, ?_⟩)
        unfold ConvRecord.pkey
        rw [hk1, hk2]
      rw [hA2, hB]
      simp only [Bool.false_eq_true, if_false, Nat.add_zero]
      rw [if_neg (fun h => h.elim hnotmemSp hC)]

theorem mergeOuter_conversions_mem (sp : List SpendRecord)
    (cv : List ConvRecord) (r : RawMergedRow) (hr : r ∈ mergeOuter sp cv)
    (hne : r.conversions ≠ none) : r.rkey ∈ cv.map ConvRecord.key := by
  unfold mergeOuter at hr
  rcases List.mem_append.mp hr with h | h
  · obtain ⟨s, _, hblock⟩ := List.mem_flatMap.mp h
    unfold spendBlock at hblock
    split at hblock
    · rw [List.mem_singleton] at hblock
      rw [hblock] at hne
      exact absurd rfl hne
    · obtain ⟨c0, hc0, rfl⟩ := List.mem_map.mp hblock
      have hc0cv := List.mem_of_mem_filter hc0
      have hmatch := List.of_mem_filter hc0
      have hkey := matchesS_iff_key.mp hmatch
      refine List.mem_map.mpr ⟨c0, hc0cv, ?_⟩
      rw [hkey]
      rfl
  · obtain ⟨c0, hc0, rfl⟩ := List.mem_map.mp h
    exact List.mem_map.mpr ⟨c0, List.mem_of_mem_filter hc0, rfl⟩

theorem mergeOuter_spend_mem (sp : List SpendRecord)
    (cv : List ConvRecord) (r : RawMergedRow) (hr : r ∈ mergeOuter sp cv)
    (hne : r.spend ≠ none) : r.rkey ∈ sp.map SpendRecord.key := by
  unfold mergeOuter at hr
  rcases List.mem_append.mp hr with h | h
  · obtain ⟨s, hs, hblock⟩ := List.mem_flatMap.mp h
    unfold spendBlock at hblock
    split at hblock
    · rw [List.mem_singleton] at hblock
      rw [hblock]
      exact List.mem_map.mpr ⟨s, hs, rfl⟩
    · obtain ⟨c0, _, rfl⟩ := List.mem_map.mp hblock
      exact List.mem_map.mpr ⟨s, hs, rfl⟩
  · obtain ⟨c0, _, rfl⟩ := List.mem_map.mp h
    exact absurd rfl hne

theorem data_processing_mem {s e : ℕ} {merged : List MergedRow}
    {r : MergedStat} (hr : r ∈ data_processing s e merged) :
    ∃ m ∈ merged, r.date = m.date ∧ r.campaign_id = m.campaign_id ∧
      r.spend = m.spend.getD 0 ∧ r.conversions = m.conversions.getD 0 := by
  unfold data_processing at hr
  split at hr
  · simp at hr
  · rw [List.Perm.mem_iff (List.perm_insertionSort statLe _)] at hr
    obtain ⟨m, hm, rfl⟩ := List.mem_map.mp hr
    exact ⟨m, List.mem_of_mem_filter hm, rfl, rfl, rfl, rfl⟩

theorem convert_data_mem {sp : List SpendRecord} {cv : List ConvRecord}
    {m : MergedRow} (hm : m ∈ convert_data sp cv) :
    ∃ raw ∈ mergeOuter sp cv, parseDate raw.date = some m.date ∧
      raw.campaign_id = m.campaign_id ∧ raw.spend = m.spend ∧
      raw.conversions = m.conversions := by
  unfold convert_data at hm
  obtain ⟨raw, hraw, hco⟩ := List.mem_filterMap.mp hm
  unfold coerceRow at hco
  obtain ⟨dd, hdd, hf⟩ := Option.map_eq_some'.mp hco
  refine ⟨raw, hraw, ?_, ?_, ?_, ?_⟩ <;> (rw [← hf]; try simp [hdd])

theorem output_missing_side_zero (sp : List SpendRecord)
    (cv : List ConvRecord) (s e : ℕ) :
    ∀ r ∈ data_processing s e (convert_data sp cv),
      ((some r.date, r.campaign_id) ∉ cv.map ConvRecord.pkey →
        r.conversions = 0)
      ∧ ((some r.date, r.campaign_id) ∉ sp.map SpendRecord.pkey →
        r.spend = 0) := by
  intro r hr
  obtain ⟨m, hm, hd, hcid, hsv, hcv2⟩ := data_processing_mem hr
  obtain ⟨raw, hraw, hp, hcid2, hsp2, hcv3⟩ := convert_data_mem hm
  constructor
  · intro hnot
    have hnone : raw.conversions = none := by
      by_contra hne
      have hkey := mergeOuter_conversions_mem sp cv raw hraw hne
      obtain ⟨c0, hc0, hkeq⟩ := List.mem_map.mp hkey
      apply hnot
      refine List.mem_map.mpr ⟨c0, hc0, ?_⟩
      unfold ConvRecord.key RawMergedRow.rkey at hkeq
      rw [Prod.mk.injEq] at hkeq
      unfold ConvRecord.pkey
      rw [hkeq.1, hkeq.2, hp, hcid2, hd, hcid]
    rw [hcv2, ← hcv3, hnone]
    rfl
  · intro hnot
    have hnone : raw.spend = none := by
      by_contra hne
      have hkey := mergeOuter_spend_mem sp cv raw hraw hne
      obtain ⟨s0, hs0, hkeq⟩ := List.mem_map.mp hkey
      apply hnot
      refine List.mem_map.mpr ⟨s0, hs0, ?_⟩
      unfold SpendRecord.key RawMergedRow.rkey at hkeq
      rw [Prod.mk.injEq] at hkeq
      unfold SpendRecord.pkey
      rw [hkeq.1, hkeq.2, hp, hcid2, hd, hcid]
    rw [hsv, ← hsp2, hnone]
    rfl

/-- C2 (amended): provided each input collection contains at most one
record per `(date, campaign_id)` key, the pipeline of `convert_data`
followed by `data_processing` emits exactly one row per distinct
parsed key appearing in either input whose date lies within
`[start, end]` inclusive — keys outside the range (or with unparseable
dates) contribute no row — and on every retained row a missing side
defaults to 0. -/
theorem merge_exactly_one_row_per_key (sp : List SpendRecord)
    (cv : List ConvRecord) (s e : ℕ)
    (hsp : (sp.map SpendRecord.key).Nodup)
    (hcv : (cv.map ConvRecord.key).Nodup) :
    (∀ d c, (data_processing s e (convert_data sp cv)).countP (statKeyIs d c)
      = if ((some d, c) ∈ sp.map SpendRecord.pkey ∨
            (some d, c) ∈ cv.map ConvRecord.pkey) ∧ s ≤ d ∧ d ≤ e
        then 1 else 0)
    ∧ ∀ r ∈ data_processing s e (convert_data sp cv),
      ((some r.date, r.campaign_id) ∉ cv.map ConvRecord.pkey →
        r.conversions = 0)
      ∧ ((some r.date, r.campaign_id) ∉ sp.map SpendRecord.pkey →
        r.spend = 0) := by
  refine ⟨fun d c => ?_, output_missing_side_zero sp cv s e⟩
  rw [countP_data_processing, countP_convert_data,
    countP_mergeOuter d c sp cv hsp hcv]
  by_cases h1 : s ≤ d ∧ d ≤ e
  · rw [if_pos h1]
    by_cases h2 : (some d, c) ∈ sp.map SpendRecord.pkey ∨
        (some d, c) ∈ cv.map ConvRecord.pkey
    · rw [if_pos h2, if_pos ⟨h2, h1⟩]
    · rw [if_neg h2, if_neg (fun h => h2 h.1)]
  · rw [if_neg h1, if_neg (fun h => h1 h.2)]

/-- C2 counterexample: with a duplicate key inside the spend input the
merged output contains two rows for that single key, not exactly
one. -/
theorem merge_exactly_one_row_per_key_cex :
    (data_processing 20250601 20250601
      (convert_data [⟨"2025-06-01", "A", 1⟩, ⟨"2025-06-01", "A", 2⟩]
        [])).countP (statKeyIs 20250601 "A") = 2 := by decide

/-- C2 witness: on a concrete duplicate-free input the pipeline emits
exactly one row for the present key. -/
theorem merge_exactly_one_row_per_key_witness :
    (([⟨"2025-06-04", "A", 5⟩] : List SpendRecord).map
      SpendRecord.key).Nodup
    ∧ (([] : List ConvRecord).map ConvRecord.key).Nodup
    ∧ (data_processing 20250604 20250604
        (convert_data [⟨"2025-06-04", "A", 5⟩] [])).countP
        (statKeyIs 20250604 "A") = 1 :=
  ⟨by decide, by decide,
    ((merge_exactly_one_row_per_key [⟨"2025-06-04", "A", 5⟩] []
      20250604 20250604 (by decide) (by decide)).1 20250604 "A").trans
      (by decide)⟩

/-- C4 (amended): the merge performs no last-write-wins deduplication:
an input with duplicate `(date, campaign_id)` keys yields one merged
row per join pairing, so the merged set can repeat a primary key; the
primary key is unique across the merged set whenever each single input
has no duplicate keys. -/
theorem nodup_of_countP {β : Type} [DecidableEq β] :
    ∀ l : List β, (∀ b, l.countP (fun x => decide (x = b)) ≤ 1) → l.Nodup := by
  intro l
  induction l with
  | nil => intro _; exact List.nodup_nil
  | cons a l ih =>
    intro h
    rw [List.nodup_cons]
    constructor
    · intro hmem
      have ha := h a
      rw [List.countP_cons] at ha
      have hz : l.countP (fun x => decide (x = a)) = 0 := by
        rw [if_pos (by simp)] at ha
        omega
      rw [List.countP_eq_zero] at hz
      exact hz a hmem (by simp)
    · refine ih fun b => ?_
      have hb := h b
      rw [List.countP_cons] at hb
      omega

theorem merged_pkey_nodup_of_unique_inputs (sp : List SpendRecord)
    (cv : List ConvRecord) (s e : ℕ)
    (hsp : (sp.map SpendRecord.key).Nodup)
    (hcv : (cv.map ConvRecord.key).Nodup) :
    ((data_processing s e (convert_data sp cv)).map MergedStat.pkey).Nodup := by
  refine nodup_of_countP _ fun k => ?_
  obtain ⟨d, c⟩ := k
  rw [List.countP_map]
  have hle : (data_processing s e (convert_data sp cv)).countP
      (statKeyIs d c) ≤ 1 := by
    rw [countP_data_processing, countP_convert_data,
      countP_mergeOuter d c sp cv hsp hcv]
    by_cases h1 : s ≤ d ∧ d ≤ e
    · rw [if_pos h1]
      split <;> omega
    · rw [if_neg h1]
      omega
  refine le_trans (le_of_eq (List.countP_congr fun r _ => ?_)) hle
  unfold statKeyIs MergedStat.pkey
  simp [Function.comp, Prod.ext_iff, Bool.and_eq_true, beq_iff_eq]

/-- C4 counterexample: two spend records sharing a key survive the
merge as two distinct rows with the same primary key — last-write-wins
deduplication does not happen. -/
theorem merged_pkey_unique_cex :
    ¬ ((data_processing 20250601 20250601
      (convert_data [⟨"2025-06-01", "B", 3⟩, ⟨"2025-06-01", "B", 4⟩]
        [])).map MergedStat.pkey).Nodup := by decide

/-- C4 witness: on concrete duplicate-free inputs the merged primary
keys are pairwise distinct. -/
theorem merged_pkey_nodup_of_unique_inputs_witness :
    (([⟨"2025-06-05", "C", 7⟩] : List SpendRecord).map
      SpendRecord.key).Nodup
    ∧ (([⟨"2025-06-05", "D", 2⟩] : List ConvRecord).map
      ConvRecord.key).Nodup
    ∧ ((data_processing 20250605 20250605
        (convert_data [⟨"2025-06-05", "C", 7⟩]
          [⟨"2025-06-05", "D", 2⟩])).map MergedStat.pkey).Nodup :=
  ⟨by decide, by decide,
    merged_pkey_nodup_of_unique_inputs [⟨"2025-06-05", "C", 7⟩]
      [⟨"2025-06-05", "D", 2⟩] 20250605 20250605 (by decide) (by decide)⟩

/-- The durable contents of the `daily_stats` table: at most one
record per primary key `(date, campaign_id)`, carrying
`(spend, conversions, cpa)`. -/
def StatsTable : Type := ℕ × String → Option (ℚ × ℚ × Option ℚ)

/-- The database connection; `committed` is the durable state visible
outside the currently open transaction. -/
structure Conn where
  committed : StatsTable

/-- One execution of `INSERT ... ON CONFLICT (date, campaign_id)
DO UPDATE SET spend = EXCLUDED.spend, ...`: insert a new record or
overwrite the record sharing the primary key with the new row's
spend, conversions and cpa. -/
def upsertRow (t : StatsTable) (r : MergedStat) : StatsTable :=
  fun k => if k = r.pkey then some (r.spend, r.conversions, r.cpa) else t k

/-- `psycopg2.extras.execute_batch`: run the upsert statement once per
row, in order, inside the open transaction.  `fails` is the failure
oracle of the external database engine: a row on which it returns
`true` raises, aborting the remaining statements. -/
def execute_batch (fails : MergedStat → Bool) :
    StatsTable → List MergedStat → Except String StatsTable
  | t, [] => Except.ok t
  | t, r :: rs =>
    if fails r then Except.error "database write failure"
    else execute_batch fails (upsertRow t r) rs

/-- `Repository.upsert_stats(rows)`: run the batch, then
`self.connection.commit()`.  An exception raised by `execute_batch`
propagates to the caller before the commit runs, so the durable state
stays the pre-call state; on success the commit makes the whole batch
durable at once. -/
def upsert_stats (fails : MergedStat → Bool) (conn : Conn)
    (rows : List MergedStat) : Except String Unit × Conn :=
  match execute_batch fails conn.committed rows with
  | Except.error e => (Except.error e, conn)
  | Except.ok t => (Except.ok (), ⟨t⟩)

theorem execute_batch_ok (fails : MergedStat → Bool) :
    ∀ (rows : List MergedStat) (t : StatsTable),
    (∀ r ∈ rows, fails r = false) →
    execute_batch fails t rows = Except.ok (rows.foldl upsertRow t) := by
  intro rows
  induction rows with
  | nil => intro t _; rfl
  | cons r rs ih =>
    intro t h
    unfold execute_batch
    rw [h r (List.mem_cons_self r rs)]
    simp only [Bool.false_eq_true, if_false]
    rw [ih _ fun x hx => h x (List.mem_cons_of_mem r hx), List.foldl_cons]

theorem execute_batch_error (fails : MergedStat → Bool) :
    ∀ (rows : List MergedStat) (t : StatsTable),
    (∃ r ∈ rows, fails r = true) →
    ∃ e, execute_batch fails t rows = Except.error e := by
  intro rows
  induction rows with
  | nil =>
    intro t h
    obtain ⟨r, hr, _⟩ := h
    cases hr
  | cons r rs ih =>
    intro t h
    unfold execute_batch
    by_cases hf : fails r = true
    · rw [if_pos hf]
      exact ⟨_, rfl⟩
    · rw [if_neg hf]
      refine ih _ ?_
      obtain ⟨x, hx, hfx⟩ := h
      rcases List.mem_cons.mp hx with rfl | hx2
      · exact absurd hfx hf
      · exact ⟨x, hx2, hfx⟩

/-- C5: `upsert_stats` is atomic as a batch: either the whole batch
commits (the durable state is every row applied in order) or the error
is propagated to the caller and the durable state is exactly the
pre-call state; an error occurs precisely when some row's write
fails. -/
theorem upsert_stats_atomic (fails : MergedStat → Bool) (conn : Conn)
    (rows : List MergedStat) :
    ((upsert_stats fails conn rows).1 = Except.ok () →
      ((upsert_stats fails conn rows).2).committed
        = rows.foldl upsertRow conn.committed)
    ∧ ((∃ e, (upsert_stats fails conn rows).1 = Except.error e) →
      ((upsert_stats fails conn rows).2).committed = conn.committed)
    ∧ ((∃ e, (upsert_stats fails conn rows).1 = Except.error e)
        ↔ ∃ r ∈ rows, fails r = true) := by
  by_cases h : ∃ r ∈ rows, fails r = true
  · obtain ⟨e, he⟩ := execute_batch_error fails rows conn.committed h
    unfold upsert_stats
    rw [he]
    exact ⟨fun hok => absurd hok (by simp), fun _ => rfl,
      ⟨fun _ => h, fun _ => ⟨e, rfl⟩⟩⟩
  · have hall : ∀ r ∈ rows, fails r = false := by
      intro r hr
      rcases Bool.eq_false_or_eq_true (fails r) with h0 | h1
      · exact absurd ⟨r, hr, h0⟩ h
      · exact h1
    unfold upsert_stats
    rw [execute_batch_ok fails rows conn.committed hall]
    exact ⟨fun _ => rfl, fun he => absurd he.choose_spec (by simp),
      ⟨fun he => absurd he.choose_spec (by simp), fun hx => absurd hx h⟩⟩

/-- C5 witness: with a concrete always-failing write oracle the error
path leaves the durable state untouched. -/
theorem upsert_stats_atomic_witness :
    ((upsert_stats (fun _ => true) ⟨fun _ => none⟩
      [⟨20250601, "A", 1, 0, none⟩]).2).committed
    = Conn.committed ⟨fun _ => none⟩ :=
  (upsert_stats_atomic (fun _ => true) ⟨fun _ => none⟩
    [⟨20250601, "A", 1, 0, none⟩]).2.1 ⟨"database write failure", rfl⟩

theorem foldl_upsertRow_apply :
    ∀ (rows : List MergedStat) (t : StatsTable) (k : ℕ × String),
    (rows.foldl upsertRow t) k
    = match rows.reverse.find? (fun r => decide (r.pkey = k)) with
      | some r => some (r.spend, r.conversions, r.cpa)
      | none => t k := by
  intro rows
  induction rows with
  | nil => intro t k; rfl
  | cons r rs ih =>
    intro t k
    rw [List.foldl_cons, ih, List.reverse_cons, List.find?_append]
    cases hf : rs.reverse.find? (fun x => decide (x.pkey = k)) with
    | some x => rfl
    | none =>
      rw [Option.none_or]
      by_cases hk : r.pkey = k
      · rw [List.find?_cons_of_pos _ (by simpa using hk)]
        unfold upsertRow
        rw [if_pos hk.symm]
      · rw [List.find?_cons_of_neg _ (by simpa using hk), List.find?_nil]
        unfold upsertRow
        rw [if_neg fun h => hk h.symm]

theorem foldl_upsertRow_idem (t : StatsTable) (rows : List MergedStat) :
    rows.foldl upsertRow (rows.foldl upsertRow t) = rows.foldl upsertRow t := by
  funext k
  rw [foldl_upsertRow_apply, foldl_upsertRow_apply]
  cases hf : rows.reverse.find? (fun x => decide (x.pkey = k)) with
  | some x => rfl
  | none => rfl

theorem upsert_stats_snd_error (fails : MergedStat → Bool) (conn : Conn)
    (rows : List MergedStat) (h : ∃ r ∈ rows, fails r = true) :
    (upsert_stats fails conn rows).2 = conn := by
  obtain ⟨e, he⟩ := execute_batch_error fails rows conn.committed h
  unfold upsert_stats
  rw [he]

theorem upsert_stats_snd_ok (fails : MergedStat → Bool) (conn : Conn)
    (rows : List MergedStat) (h : ∀ r ∈ rows, fails r = false) :
    (upsert_stats fails conn rows).2 = ⟨rows.foldl upsertRow conn.committed⟩ := by
  unfold upsert_stats
  rw [execute_batch_ok fails rows conn.committed h]

/-- C6: `upsert_stats` is idempotent — running the same batch twice in
succession leaves the store in a state identical to running it once —
and a successful batch sets, at every primary key, the stored record
to the values of the last batch row with that key (insert or
overwrite), leaving all other keys untouched. -/
theorem upsert_stats_idempotent :
    (∀ (fails : MergedStat → Bool) (conn : Conn) (rows : List MergedStat),
      ((upsert_stats fails (upsert_stats fails conn rows).2 rows).2).committed
        = ((upsert_stats fails conn rows).2).committed)
    ∧ (∀ (conn : Conn) (rows : List MergedStat) (k : ℕ × String),
      ((upsert_stats (fun _ => false) conn rows).2).committed k
        = match rows.reverse.find? (fun r => decide (r.pkey = k)) with
          | some r => some (r.spend, r.conversions, r.cpa)
          | none => conn.committed k) := by
  constructor
  · intro fails conn rows
    by_cases h : ∃ r ∈ rows, fails r = true
    · rw [upsert_stats_snd_error fails conn rows h,
        upsert_stats_snd_error fails conn rows h]
    · have hall : ∀ r ∈ rows, fails r = false := by
        intro r hr
        rcases Bool.eq_false_or_eq_true (fails r) with h0 | h1
        · exact absurd ⟨r, hr, h0⟩ h
        · exact h1
      rw [upsert_stats_snd_ok fails conn rows hall,
        upsert_stats_snd_ok fails _ rows hall]
      exact congrArg Conn.committed
        (congrArg Conn.mk (foldl_upsertRow_idem conn.committed rows))
  · intro conn rows k
    rw [upsert_stats_snd_ok (fun _ => false) conn rows fun _ _ => rfl]
    exact foldl_upsertRow_apply rows conn.committed k

/-- The exceptions the API call can raise: `RequestException` and
`ConnectionError` are retried with backoff; any other exception breaks
the loop. -/
inductive ApiError where
  | network (msg : String)
  | other (msg : String)

/-- Retry budget of `request_api`. -/
def MAX_RETRIES : ℕ := 10

/-- Base backoff delay of `request_api`, in seconds. -/
def BASE_DELAY : ℕ := 2

/-- The retry loop of `request_api`, generalised over the API call
`api` (attempt number ↦ outcome); `rem` counts the remaining loop
iterations and `delays` accumulates the sleeps performed (in reverse).
A successful response with two non-empty lists returns immediately;
an empty success falls through to the next attempt without sleeping;
a network error sleeps `BASE_DELAY * attempt` unless the attempt is
the last; any other error breaks.  When the loop ends without
returning, the result is the pair of empty lists. -/
def attemptLoop
    (api : ℕ → Except ApiError (List SpendRecord × List ConvRecord)) :
    ℕ → ℕ → List ℕ → (List SpendRecord × List ConvRecord) × List ℕ
  | _, 0, delays => (([], []), delays.reverse)
  | attempt, rem + 1, delays =>
    match api attempt with
    | Except.ok (spend_data, conv_data) =>
      if spend_data.isEmpty = false ∧ conv_data.isEmpty = false then
        ((spend_data, conv_data), delays.reverse)
      else attemptLoop api (attempt + 1) rem delays
    | Except.error (ApiError.network _) =>
      if attempt < MAX_RETRIES then
        attemptLoop api (attempt + 1) rem (BASE_DELAY * attempt :: delays)
      else attemptLoop api (attempt + 1) rem delays
    | Except.error (ApiError.other _) => (([], []), delays.reverse)

/-- `request_api()`: run attempts `1 .. MAX_RETRIES`; the second
component records the backoff sleeps performed. -/
def request_api
    (api : ℕ → Except ApiError (List SpendRecord × List ConvRecord)) :
    (List SpendRecord × List ConvRecord) × List ℕ :=
  attemptLoop api 1 MAX_RETRIES []

theorem attemptLoop_net_step
    (api : ℕ → Except ApiError (List SpendRecord × List ConvRecord))
    (attempt rem : ℕ) (delays : List ℕ) (m : String)
    (he : api attempt = Except.error (ApiError.network m))
    (hlt : attempt < MAX_RETRIES) :
    attemptLoop api attempt (rem + 1) delays
    = attemptLoop api (attempt + 1) rem (BASE_DELAY * attempt :: delays) := by
  conv_lhs => unfold attemptLoop
  rw [he]
  simp only [if_pos hlt]

theorem attemptLoop_net_last
    (api : ℕ → Except ApiError (List SpendRecord × List ConvRecord))
    (attempt rem : ℕ) (delays : List ℕ) (m : String)
    (he : api attempt = Except.error (ApiError.network m))
    (hge : ¬ attempt < MAX_RETRIES) :
    attemptLoop api attempt (rem + 1) delays
    = attemptLoop api (attempt + 1) rem delays := by
  conv_lhs => unfold attemptLoop
  rw [he]
  simp only [if_neg hge]

theorem attemptLoop_ok_return
    (api : ℕ → Except ApiError (List SpendRecord × List ConvRecord))
    (attempt rem : ℕ) (delays : List ℕ)
    (spend_data : List SpendRecord) (conv_data : List ConvRecord)
    (he : api attempt = Except.ok (spend_data, conv_data))
    (h1 : spend_data.isEmpty = false) (h2 : conv_data.isEmpty = false) :
    attemptLoop api attempt (rem + 1) delays
    = ((spend_data, conv_data), delays.reverse) := by
  conv_lhs => unfold attemptLoop
  rw [he]
  simp only [if_pos (And.intro h1 h2)]

/-- C7 (amended): `request_api` retries up to its budget of 10
attempts with a base delay of 2 scaling linearly with the attempt
number (sleeping `2·attempt` after each failed non-final attempt), but
exhaustion of the budget is not surfaced as an error: the call returns
the successful empty pair `([], [])`.  A first-attempt success with
two non-empty lists returns immediately with no sleeps. -/
theorem request_api_retry_semantics :
    (∀ api, (∀ n, 1 ≤ n → n ≤ MAX_RETRIES →
        ∃ m, api n = Except.error (ApiError.network m)) →
      request_api api = (([], []), [2, 4, 6, 8, 10, 12, 14, 16, 18]))
    ∧ (∀ api spend_data conv_data,
      api 1 = Except.ok (spend_data, conv_data) →
      spend_data.isEmpty = false → conv_data.isEmpty = false →
      request_api api = ((spend_data, conv_data), [])) := by
  constructor
  · intro api h
    obtain ⟨m1, e1⟩ := h 1 (by norm_num) (by norm_num [MAX_RETRIES])
    obtain ⟨m2, e2⟩ := h 2 (by norm_num) (by norm_num [MAX_RETRIES])
    obtain ⟨m3, e3⟩ := h 3 (by norm_num) (by norm_num [MAX_RETRIES])
    obtain ⟨m4, e4⟩ := h 4 (by norm_num) (by norm_num [MAX_RETRIES])
    obtain ⟨m5, e5⟩ := h 5 (by norm_num) (by norm_num [MAX_RETRIES])
    obtain ⟨m6, e6⟩ := h 6 (by norm_num) (by norm_num [MAX_RETRIES])
    obtain ⟨m7, e7⟩ := h 7 (by norm_num) (by norm_num [MAX_RETRIES])
    obtain ⟨m8, e8⟩ := h 8 (by norm_num) (by norm_num [MAX_RETRIES])
    obtain ⟨m9, e9⟩ := h 9 (by norm_num) (by norm_num [MAX_RETRIES])
    obtain ⟨m10, e10⟩ := h 10 (by norm_num) (by norm_num [MAX_RETRIES])
    unfold request_api
    rw [show MAX_RETRIES = 9 + 1 from rfl,
      attemptLoop_net_step api 1 9 [] m1 e1 (by norm_num [MAX_RETRIES]),
      show (9 : ℕ) = 8 + 1 from rfl,
      attemptLoop_net_step api 2 8 _ m2 e2 (by norm_num [MAX_RETRIES]),
      show (8 : ℕ) = 7 + 1 from rfl,
      attemptLoop_net_step api 3 7 _ m3 e3 (by norm_num [MAX_RETRIES]),
      show (7 : ℕ) = 6 + 1 from rfl,
      attemptLoop_net_step api 4 6 _ m4 e4 (by norm_num [MAX_RETRIES]),
      show (6 : ℕ) = 5 + 1 from rfl,
      attemptLoop_net_step api 5 5 _ m5 e5 (by norm_num [MAX_RETRIES]),
      show (5 : ℕ) = 4 + 1 from rfl,
      attemptLoop_net_step api 6 4 _ m6 e6 (by norm_num [MAX_RETRIES]),
      show (4 : ℕ) = 3 + 1 from rfl,
      attemptLoop_net_step api 7 3 _ m7 e7 (by norm_num [MAX_RETRIES]),
      show (3 : ℕ) = 2 + 1 from rfl,
      attemptLoop_net_step api 8 2 _ m8 e8 (by norm_num [MAX_RETRIES]),
      show (2 : ℕ) = 1 + 1 from rfl,
      attemptLoop_net_step api 9 1 _ m9 e9 (by norm_num [MAX_RETRIES]),
      show (1 : ℕ) = 0 + 1 from rfl,
      attemptLoop_net_last api 10 0 _ m10 e10 (by norm_num [MAX_RETRIES])]
    rfl
  · intro api spend_data conv_data he h1 h2
    unfold request_api
    rw [show MAX_RETRIES = 9 + 1 from rfl,
      attemptLoop_ok_return api 1 9 [] spend_data conv_data he h1 h2]
    rfl

/-- C7 counterexample: when every attempt raises a network error,
`request_api` does not raise after exhausting its 10-attempt budget —
it converts the failure into the successful empty result `([], [])`
(after backoff sleeps of 2·attempt for attempts 1..9). -/
theorem request_api_no_error_cex :
    request_api (fun _ => Except.error (ApiError.network "down"))
    = (([], []), [2, 4, 6, 8, 10, 12, 14, 16, 18]) := by decide

/-- C7 witness: a concrete always-failing API exhausts the budget and
yields the empty pair with the linear backoff schedule, and a concrete
first-try success returns immediately. -/
theorem request_api_retry_semantics_witness :
    request_api (fun _ => Except.error (ApiError.network "offline"))
      = (([], []), [2, 4, 6, 8, 10, 12, 14, 16, 18])
    ∧ request_api (fun _ => Except.ok ([⟨"2025-06-01", "T", 100⟩],
        [⟨"2025-06-01", "T", 7⟩]))
      = (([⟨"2025-06-01", "T", 100⟩], [⟨"2025-06-01", "T", 7⟩]), []) :=
  ⟨request_api_retry_semantics.1 _ fun _ _ _ => ⟨"offline", rfl⟩,
    request_api_retry_semantics.2 _ _ _ rfl rfl rfl⟩

/-- `df_all["date"].min().date()` on a non-empty frame `r :: rs`. -/
def minDate (r : MergedRow) (rs : List MergedRow) : ℕ :=
  rs.foldl (fun a x => min a x.date) r.date

/-- `df_all["date"].max().date()` on a non-empty frame `r :: rs`. -/
def maxDate (r : MergedRow) (rs : List MergedRow) : ℕ :=
  rs.foldl (fun a x => max a x.date) r.date

/-- The merged frame produced by one refresh cycle:
`convert_data(*request_api())`. -/
def mergedOf
    (api : ℕ → Except ApiError (List SpendRecord × List ConvRecord)) :
    List MergedRow :=
  convert_data (request_api api).1.1 (request_api api).1.2

/-- The processed rows of one refresh cycle: `data_processing` over
the `[min, max]` date range derived from the fetched frame itself
(empty when the frame is empty). -/
def processedOf
    (api : ℕ → Except ApiError (List SpendRecord × List ConvRecord)) :
    List MergedStat :=
  match mergedOf api with
  | [] => []
  | r :: rs => data_processing (minDate r rs) (maxDate r rs) (r :: rs)

/-- `update_data(repo)`: fetch, merge, return early on an empty frame,
derive the date range, process, and call `repo.upsert_stats` only when
the processed result is non-empty.  Returns the connection after the
cycle together with whether `upsert_stats` was invoked (the
orchestrator catches and logs any exception, so the process
continues either way). -/
def update_data
    (api : ℕ → Except ApiError (List SpendRecord × List ConvRecord))
    (fails : MergedStat → Bool) (conn : Conn) : Conn × Bool :=
  match mergedOf api with
  | [] => (conn, false)
  | r :: rs =>
    if (data_processing (minDate r rs) (maxDate r rs) (r :: rs)).isEmpty then
      (conn, false)
    else
      ((upsert_stats fails conn
        (data_processing (minDate r rs) (maxDate r rs) (r :: rs))).2, true)

/-- C8: when a refresh cycle's merge yields zero processed rows,
`upsert_stats` is not invoked and the connection is untouched; and an
explicit `upsert_stats` call on an empty collection succeeds as a
no-op, leaving the store unchanged. -/
theorem empty_merge_no_upsert :
    (∀ api fails conn, processedOf api = [] →
      update_data api fails conn = (conn, false))
    ∧ (∀ fails conn, upsert_stats fails conn [] = (Except.ok (), conn)) := by
  constructor
  · intro api fails conn h
    unfold processedOf at h
    unfold update_data
    cases hm : mergedOf api with
    | nil => rfl
    | cons r rs =>
      rw [hm] at h
      simp only
      rw [if_pos (List.isEmpty_iff.mpr h)]
  · intro fails conn
    rfl

/-- C8 witness: a concrete cycle whose fetch yields only empty lists
produces zero processed rows and performs no upsert, and the
empty-batch upsert is a successful no-op on a concrete store. -/
theorem empty_merge_no_upsert_witness :
    processedOf (fun _ => Except.ok ([], [])) = []
    ∧ update_data (fun _ => Except.ok ([], [])) (fun _ => false)
        ⟨fun _ => none⟩ = (⟨fun _ => none⟩, false) :=
  ⟨by decide,
    empty_merge_no_upsert.1 (fun _ => Except.ok ([], [])) (fun _ => false)
      ⟨fun _ => none⟩ (by decide)⟩

/-- `interval_calculation(max_requests_per_day)`: raise a ValueError
on a non-positive budget, else return
`60 / ((max_requests_per_day * 0.8) / 24)` minutes, built exactly as
in the source: requests needed, allowed per hour, interval in hours,
then minutes. -/
def interval_calculation (max_requests_per_day : ℤ) : Except String ℚ :=
  if max_requests_per_day ≤ 0 then
    Except.error "max_requests_per_day must be positive"
  else
    Except.ok ((1 / (((max_requests_per_day : ℚ) * (8 / 10)) / 24)) * 60)

/-- C9: `interval_calculation` returns `60 / ((m * 0.8) / 24)` minutes
for every positive budget `m` — in particular 18 minutes for 100
requests per day — and raises a configuration error for every
`m ≤ 0`. -/
theorem interval_calculation_spec :
    (∀ m : ℤ, 0 < m → interval_calculation m
      = Except.ok (60 / (((m : ℚ) * (8 / 10)) / 24)))
    ∧ (∀ m : ℤ, m ≤ 0 → ∃ msg, interval_calculation m = Except.error msg)
    ∧ interval_calculation 100 = Except.ok 18 := by
  refine ⟨?_, ?_, ?_⟩
  · intro m hm
    unfold interval_calculation
    rw [if_neg (by omega)]
    rw [one_div, inv_mul_eq_div]
  · intro m hm
    refine ⟨"max_requests_per_day must be positive", ?_⟩
    unfold interval_calculation
    rw [if_pos hm]
  · unfold interval_calculation
    rw [if_neg (by omega)]
    congr 1
    norm_num

/-- C9 witness: the positive branch at 100 and the error branch at 0,
obtained from the theorem at concrete inputs. -/
theorem interval_calculation_spec_witness :
    interval_calculation 100 = Except.ok (60 / (((100 : ℚ) * (8 / 10)) / 24))
    ∧ ∃ msg, interval_calculation 0 = Except.error msg :=
  ⟨interval_calculation_spec.1 100 (by norm_num),
    interval_calculation_spec.2.1 0 (by norm_num)⟩
